import Mathlib

/-!
Shallow embedding of `modules/renter/repair.go`: the repair-matrix builder,
the gap-count histogram, the dispatch scheduler's candidate scan and dispatch
step, and the worker liveness bookkeeping.

Modelling conventions:
* worker / contract identifiers are `Nat` (`types.FileContractID`);
* timestamps are `Nat`, with `0` standing for Go's zero `time.Time`;
* piece payloads are abstracted as `Nat`;
* Go maps with `struct{}` values (`availableWorkers`, `activeWorkers`) are
  duplicate-free lists, and map iteration order is the list order;
* the `gapCounts` map (`map[int]int`, absent keys read as `0`) is a function
  `Nat → Int`;
* the source text mixes the spellings `pieceMap`/`completedPieces` and
  `contractMap`/`utilizedContracts` for the same two per-chunk maps; the
  embedding uses the names `pieceMap` and `contractMap`;
* the `numGaps` value of a `chunkGaps` record is, per the struct's own
  documentation, the minimum of `len(contracts)` and `len(pieces)`; the
  scheduler caches it in the record and keeps the cache in lock-step with
  the two lists (repair.go lines 236-241 and 326-334), so the embedding
  carries it as a structure field next to the `numGapsFn` computation of
  lines 106-112.
-/

namespace RenterRepair

/-- One hour (`time.Hour`) in the abstract time unit used for timestamps. -/
def timeHour : Nat := 3600

abbrev FileContractID := Nat

/-- One entry of `contract.Pieces`: which piece of which chunk is stored. -/
structure contractPiece where
  chunk : Nat
  piece : Nat
deriving DecidableEq

/-- A file contract together with the pieces it currently stores. -/
structure fileContract where
  id : FileContractID
  Pieces : List contractPiece
deriving DecidableEq

/-- The slice of `file` that the repair code reads: name, contract list,
`erasureCode.NumPieces()` and `numChunks()`. -/
structure file where
  name : String
  contracts : List fileContract
  numPieces : Nat
  numChunks : Nat
deriving DecidableEq

/-- Key of the repair matrix (repair.go lines 20-26). -/
structure chunkID where
  chunkIndex : Nat
  filename : String
deriving DecidableEq

/-- Minimum of the two list lengths, written as in the `numGaps()` method. -/
def numGapsOf (cs : List FileContractID) (ps : List Nat) : Nat :=
  if cs.length ≤ ps.length then cs.length else ps.length

/-- `chunkGaps` (repair.go lines 15-18): the missing contracts and missing
pieces of one chunk, together with the cached `numGaps` value, documented as
the minimum of `len(contracts)` and `len(pieces)`. -/
structure chunkGaps where
  contracts : List FileContractID
  pieces : List Nat
  numGaps : Nat
deriving DecidableEq

/-- The `numGaps()` method (repair.go lines 106-112). -/
def chunkGaps.numGapsFn (cg : chunkGaps) : Nat :=
  numGapsOf cg.contracts cg.pieces

/-- The gap-count histogram `gapCounts : map[int]int`; absent keys read `0`. -/
def GapCounts : Type := Nat → Int

/-- Increment a histogram bucket (`gapCounts[k]++`). -/
def gcInc (gc : GapCounts) (k : Nat) : GapCounts :=
  fun j => if j = k then gc j + 1 else gc j

/-- Decrement a histogram bucket (`gapCounts[k]--`). -/
def gcDec (gc : GapCounts) (k : Nat) : GapCounts :=
  fun j => if j = k then gc j - 1 else gc j

/-- Decrement the old bucket and increment the new one, as done whenever a
chunk's gap count changes (repair.go lines 239-240 and 333-334). -/
def gcMove (gc : GapCounts) (old new : Nat) : GapCounts :=
  gcInc (gcDec gc old) new

/-- The repair matrix `map[chunkID]*chunkGaps`, as an association list whose
keys are unique in every state the program builds. -/
abbrev RepairMatrix := List (chunkID × chunkGaps)

/-- Per-chunk list of piece indices already stored, built by scanning every
contract's stored-piece list once (repair.go lines 47-61). -/
def pieceMap (f : file) (i : Nat) : List Nat :=
  f.contracts.flatMap fun c =>
    (c.Pieces.filter fun p => decide (p.chunk = i)).map contractPiece.piece

/-- Per-chunk list of contract ids already storing a piece of the chunk,
appended once per stored piece (repair.go line 52). -/
def contractMap (f : file) (i : Nat) : List FileContractID :=
  f.contracts.flatMap fun c =>
    (c.Pieces.filter fun p => decide (p.chunk = i)).map fun _ => c.id

/-- Gap record for chunk `i` of a file (repair.go lines 65-97): the missing
pieces are the indices in `[0, NumPieces)` not yet stored, the missing
contracts are the available workers not yet storing a piece of this chunk,
and `numGaps` is their minimum. -/
def buildGaps (f : file) (contracts : List FileContractID) (i : Nat) : chunkGaps :=
  let ps := (List.range f.numPieces).filter fun j => decide (j ∉ pieceMap f i)
  let cs := contracts.filter fun c => decide (c ∉ contractMap f i)
  { contracts := cs, pieces := ps, numGaps := numGapsOf cs ps }

/-- Go map assignment `repairMatrix[cid] = &gaps`: replace the entry if the
key is present, append otherwise. The write is unconditional in the source
(repair.go lines 99-101); there is no check whether the chunk already has an
entry. -/
def matrixInsert (m : RepairMatrix) (cid : chunkID) (cg : chunkGaps) : RepairMatrix :=
  if m.any fun e => decide (e.1 = cid) then
    m.map fun e => if e.1 = cid then (cid, cg) else e
  else
    m ++ [(cid, cg)]

/-- Body of the builder's per-chunk loop (repair.go lines 65-103): if the
chunk is incomplete, record its gap record and bump the histogram bucket of
its gap count. -/
def addChunkStep (f : file) (availableWorkers : List FileContractID)
    (acc : RepairMatrix × GapCounts) (i : Nat) : RepairMatrix × GapCounts :=
  if (pieceMap f i).length < f.numPieces then
    let gaps := buildGaps f availableWorkers i
    (matrixInsert acc.1 ⟨i, f.name⟩ gaps, gcInc acc.2 gaps.numGaps)
  else acc

/-- `addFileToRepairMatrix` (repair.go lines 28-104): for every chunk whose
stored-piece count is below `NumPieces()`, record its gap record in the
matrix and increment the histogram bucket of its gap count. -/
def addFileToRepairMatrix (f : file) (availableWorkers : List FileContractID)
    (m : RepairMatrix) (gc : GapCounts) : RepairMatrix × GapCounts :=
  (List.range f.numChunks).foldl (addChunkStep f availableWorkers) (m, gc)

/-- A worker handle; only the most-recent upload-failure timestamp matters
to the scheduler (`0` = Go's zero `time.Time`, meaning no failure yet). -/
structure worker where
  recentUploadFailure : Nat
deriving DecidableEq

/-- The global worker pool `map[types.FileContractID]*worker`. -/
abbrev WorkerPool := List (FileContractID × worker)

/-- Epoch-start worker eligibility (repair.go lines 134-143): a worker is in
the initial `availableWorkers` set exactly when
`worker.recentUploadFailure.Add(time.Hour).Before(time.Now())`. -/
def eligibleWorkers (pool : WorkerPool) (now : Nat) : List FileContractID :=
  (pool.filter fun p => decide (p.2.recentUploadFailure + timeHour < now)).map Prod.fst

/-- Remove the contract ids of retired workers from a contract list: for each
retired id, delete its first occurrence (repair.go lines 226-233). -/
def purgeRetired (retired : List FileContractID)
    (cs : List FileContractID) : List FileContractID :=
  retired.foldl (fun acc r => acc.erase r) cs

/-- The deprioritized-chunk bookkeeping (repair.go lines 218-242): purge the
retired workers from the chunk's missing-contract list, and if that lowered
the chunk's gap count, recache it and move the chunk's histogram bucket. -/
def skipUpdate (retired : List FileContractID) (cg : chunkGaps)
    (gc : GapCounts) : chunkGaps × GapCounts :=
  let cs := purgeRetired retired cg.contracts
  if cs.length < cg.pieces.length ∧ cs.length < cg.numGaps then
    ({ contracts := cs, pieces := cg.pieces, numGaps := cs.length },
     gcMove gc cg.numGaps cs.length)
  else
    ({ cg with contracts := cs }, gc)

/-- The external collaborators of one candidate-chunk attempt: file lookup,
tracking lookup, `os.Open`, `ReadAt` (EOF tolerated), `Encode`, and per-piece
`EncryptBytes` together with the abstract piece payloads. -/
structure RepairEnv where
  fileExists : String → Bool
  trackingExists : String → Bool
  openOk : String → Bool
  readOk : chunkID → Bool
  encodeOk : chunkID → Bool
  encryptOk : chunkID → Nat → Bool
  pieceData : chunkID → Nat → Nat

/-- Result of the per-piece encryption loop (repair.go lines 287-295): on
failure the piece slot is overwritten with the failed call's return value
(modelled as `0`, Go's `nil`), and the loop moves on to the next piece — the
`continue` in that loop continues the piece loop, not the chunk scan. -/
def encryptedPiece (env : RepairEnv) (cid : chunkID) (j : Nat) : Nat :=
  if env.encryptOk cid j then env.pieceData cid j else 0

/-- A work item handed to a worker's upload queue (`uploadWork`). -/
structure uploadWork where
  chunkIndex : Nat
  pieceIndex : Nat
  data : Nat
  workerID : FileContractID
deriving DecidableEq

/-- Net effect of the hand-off loop on an accepted chunk (repair.go lines
296-335).  For `i` from `0` to `min(len(usefulWorkers), len(pieces)) - 1` the
loop sends `{chunkIndex, pieceIndex = pieces[i], data}` to `usefulWorkers[i]`,
deletes that worker from `availableWorkers`, and erases its contract id from
the chunk's contract list; the pieces list is never modified inside the loop,
and afterwards the consumed prefix is dropped (`pieces = pieces[i:]`), the
cached gap count is recomputed, and the histogram bucket is moved.  The model
is the run in which every queue send completes before the stop signal. -/
structure DispatchResult where
  gaps : chunkGaps
  gc : GapCounts
  available : List FileContractID
  sent : List uploadWork

def dispatchChunk (env : RepairEnv) (cid : chunkID) (cg : chunkGaps)
    (useful available : List FileContractID) (gc : GapCounts) : DispatchResult :=
  let n := min useful.length cg.pieces.length
  let used := useful.take n
  let sent := (List.range n).map fun i =>
    { chunkIndex := cid.chunkIndex
      pieceIndex := cg.pieces.getD i 0
      data := encryptedPiece env cid (cg.pieces.getD i 0)
      workerID := useful.getD i 0 }
  let available2 := used.foldl (fun a w => a.erase w) available
  let contracts2 := used.foldl (fun a w => a.erase w) cg.contracts
  let pieces2 := cg.pieces.drop n
  let ng := if contracts2.length < pieces2.length then contracts2.length
            else pieces2.length
  { gaps := { contracts := contracts2, pieces := pieces2, numGaps := ng }
    gc := gcMove gc cg.numGaps ng
    available := available2
    sent := sent }

/-- Outcome of one candidate scan of the repair matrix. -/
structure ScanResult where
  matrix : RepairMatrix
  gc : GapCounts
  available : List FileContractID
  sent : List uploadWork
  dispatched : Option chunkID

/-- The candidate scan (repair.go lines 205-336).  For each entry in matrix
order: compute the useful workers; if `maxGaps >= 4` and fewer than 4 useful
workers, run the deprioritized-chunk bookkeeping and continue; if any of the
file lookup, tracking lookup, open, read, or encode steps fails, leave the
entry untouched and continue; otherwise hand pieces to the useful workers and
stop the scan (`break` after one chunk).  Encryption failures do not abort
the chunk: the `continue` at line 293 targets the piece loop, so the chunk is
dispatched regardless. -/
def scanMatrix (env : RepairEnv) (maxGaps : Nat) (retired : List FileContractID)
    (available : List FileContractID) :
    RepairMatrix → GapCounts → ScanResult
  | [], gc => ⟨[], gc, available, [], none⟩
  | (cid, cg) :: rest, gc =>
    let useful := available.filter fun w => decide (w ∈ cg.contracts)
    if maxGaps ≥ 4 ∧ useful.length < 4 then
      let u := skipUpdate retired cg gc
      let r := scanMatrix env maxGaps retired available rest u.2
      { r with matrix := (cid, u.1) :: r.matrix }
    else if !env.fileExists cid.filename || !env.trackingExists cid.filename ||
            !env.openOk cid.filename || !env.readOk cid || !env.encodeOk cid then
      let r := scanMatrix env maxGaps retired available rest gc
      { r with matrix := (cid, cg) :: r.matrix }
    else
      let d := dispatchChunk env cid cg useful available gc
      ⟨(cid, d.gaps) :: rest, d.gc, d.available, d.sent, some cid⟩

/-- The `maxGaps` computation (repair.go lines 193-199): the largest bucket
key with a positive count, `0` if there is none; `bound` dominates every key
the histogram has ever touched. -/
def maxGapsUpTo (gc : GapCounts) : Nat → Nat
  | 0 => 0
  | n + 1 => if 0 < gc (n + 1) then n + 1 else maxGapsUpTo gc n

/-- One result from the shared result channel (`finishedUpload`); `err` is
`true` when the upload failed. -/
structure finishedUpload where
  workerID : FileContractID
  err : Bool
deriving DecidableEq

/-- Go map lookup `r.workerPool[id]`. -/
def lookupWorker (pool : WorkerPool) (id : FileContractID) : Option worker :=
  (pool.find? fun p => decide (p.1 = id)).map Prod.snd

/-- Overwrite the pool entry for `id`. -/
def updateWorker (pool : WorkerPool) (id : FileContractID) (w : worker) : WorkerPool :=
  pool.map fun p => if p.1 = id then (id, w) else p

/-- The scheduler state read and written by the wait loop. -/
structure WaitState where
  workerPool : WorkerPool
  activeWorkers : List FileContractID
  availableWorkers : List FileContractID
  retiredWorkers : List FileContractID
  need : Int
deriving DecidableEq

/-- Handling of one consumed result (repair.go lines 357-381).  On a failure
from a worker present in the pool: record the failure time, append the worker
to the retired list, delete it from the active set and decrement `need`; on a
failure from an unknown worker: change nothing; on success: put the worker
back into the available set. -/
def handleResult (now : Nat) (s : WaitState) (fu : finishedUpload) : WaitState :=
  if fu.err then
    match lookupWorker s.workerPool fu.workerID with
    | some w =>
      { workerPool := updateWorker s.workerPool fu.workerID
          { w with recentUploadFailure := now }
        activeWorkers := s.activeWorkers.erase fu.workerID
        availableWorkers := s.availableWorkers
        retiredWorkers := s.retiredWorkers ++ [fu.workerID]
        need := s.need - 1 }
    | none => s
  else
    { s with availableWorkers :=
        if fu.workerID ∈ s.availableWorkers then s.availableWorkers
        else s.availableWorkers ++ [fu.workerID] }

/-- The wait-threshold computation of repair.go lines 338-354, together with
the `newMatrix` flag that line 385 turns into an end of the epoch. -/
structure WaitPlan where
  need : Int
  newMatrix : Bool
deriving DecidableEq

def computeNeed (maxGaps numActive numAvailable : Nat) (elapsed : Nat) : WaitPlan :=
  let exclude : Int := if (maxGaps : Int) - 4 < 0 then 0 else (maxGaps : Int) - 4
  let need1 : Int := (numActive : Int) - exclude
  let need2 : Int := if need1 ≤ (numAvailable : Int) then (numAvailable : Int) + 1
                     else need1
  let need3 : Int := if need2 > (numActive : Int) then (numActive : Int) else need2
  if elapsed > timeHour then { need := (numActive : Int), newMatrix := true }
  else { need := need3, newMatrix := false }

/-- Line 385: once the wait completes, a set `newMatrix` flag breaks the
iteration loop so the driver rebuilds the matrix. -/
def epochEndsAfterWait (p : WaitPlan) : Bool := p.newMatrix

/-- Head of one dispatch-scheduler iteration (repair.go lines 184-336): the
initial stop check, the `maxGaps` read, and the candidate scan.  The stop
check at lines 186-191 is a `select` whose `break` statement exits the
`select` itself, not the enclosing `for` loop, so execution falls through to
the scan whether or not the stop signal has fired; the `stopSignal` argument
therefore does not influence the result. -/
structure IterationHead where
  endEpoch : Bool
  scan : ScanResult

def repairIterationDispatch (stopSignal : Bool) (env : RepairEnv)
    (gapBound : Nat) (retired available : List FileContractID)
    (m : RepairMatrix) (gc : GapCounts) : IterationHead :=
  let _ := stopSignal
  let maxGaps := maxGapsUpTo gc gapBound
  if maxGaps = 0 then ⟨true, ⟨m, gc, available, [], none⟩⟩
  else ⟨false, scanMatrix env maxGaps retired available m gc⟩

/-! ## Histogram invariant and concrete scenario data -/

/-- Number of matrix entries currently occupying histogram bucket `k`. -/
def bucketCount (m : RepairMatrix) (k : Nat) : Nat :=
  (m.filter fun e => decide (e.2.numGaps = k)).length

/-- The histogram invariant: every entry's cached gap count is the minimum of
its missing-contract and missing-piece counts, and every histogram bucket
holds exactly the number of entries with that gap count. -/
def histCoherent (m : RepairMatrix) (gc : GapCounts) : Prop :=
  (∀ e ∈ m, e.2.numGaps = numGapsOf e.2.contracts e.2.pieces) ∧
  (∀ k : Nat, gc k = (bucketCount m k : Int))

/-- Sum of the histogram buckets below `B`. -/
def gcSum (gc : GapCounts) (B : Nat) : Int := ∑ k ∈ Finset.range B, gc k

/-- The empty histogram. -/
def gcZero : GapCounts := fun _ => 0

/-- A histogram whose only occupied bucket is `1`, with count one. -/
def gcOne : GapCounts := fun k => if k = 1 then 1 else 0

/-- An environment in which every external collaborator call succeeds. -/
def allOkEnv : RepairEnv where
  fileExists := fun _ => true
  trackingExists := fun _ => true
  openOk := fun _ => true
  readOk := fun _ => true
  encodeOk := fun _ => true
  encryptOk := fun _ _ => true
  pieceData := fun _ j => j + 100

/-- An environment in which every `EncryptBytes` call fails. -/
def encFailEnv : RepairEnv := { allOkEnv with encryptOk := fun _ _ => false }

/-! ## Claim C1: the initial stop check does not end the iteration -/

/-- C1 (code bug): the iteration's initial stop check (repair.go lines
184-191) does not terminate the epoch.  The `break` exits only the `select`
statement, so with the stop signal already fired the iteration still scans
the matrix, dispatches a chunk, and mutates the repair matrix exactly as it
would without the signal — here a one-chunk matrix is dispatched and its gap
record is emptied even though `stopSignal = true`. -/
theorem stop_signal_does_not_end_iteration :
    (repairIterationDispatch true allOkEnv 1 [] [1]
        [(⟨0, "f"⟩, ⟨[1], [0], 1⟩)] gcOne).endEpoch = false ∧
    (repairIterationDispatch true allOkEnv 1 [] [1]
        [(⟨0, "f"⟩, ⟨[1], [0], 1⟩)] gcOne).scan.sent = [⟨0, 0, 100, 1⟩] ∧
    (repairIterationDispatch true allOkEnv 1 [] [1]
        [(⟨0, "f"⟩, ⟨[1], [0], 1⟩)] gcOne).scan.matrix =
      [(⟨0, "f"⟩, ⟨[], [], 0⟩)] ∧
    repairIterationDispatch true allOkEnv 1 [] [1]
        [(⟨0, "f"⟩, ⟨[1], [0], 1⟩)] gcOne =
      repairIterationDispatch false allOkEnv 1 [] [1]
        [(⟨0, "f"⟩, ⟨[1], [0], 1⟩)] gcOne :=
  ⟨by decide, by decide, by decide, rfl⟩

/-! ## Claim C7: encryption failure does not skip the chunk -/

/-- C7 (code bug): when `EncryptBytes` fails, the `continue` at repair.go
line 293 continues the per-piece encryption loop, not the chunk scan, so the
chunk is still dispatched — here a work item (with the failed call's `nil`
payload, modelled as `0`) is handed to worker `5` even though every
encryption call failed. -/
theorem encryption_failure_still_dispatches :
    (scanMatrix encFailEnv 2 [] [5] [(⟨0, "g"⟩, ⟨[5], [0], 1⟩)] gcOne).sent =
      [⟨0, 0, 0, 5⟩] ∧
    (scanMatrix encFailEnv 2 [] [5] [(⟨0, "g"⟩, ⟨[5], [0], 1⟩)] gcOne).dispatched =
      some ⟨0, "g"⟩ :=
  ⟨by decide, by decide⟩

/-! ## Claims C2 and C3: refolding a file double-counts the histogram -/

/-- A one-chunk file with one missing piece and no contracts; used to show
what folding the same file twice does to the histogram. -/
def c2file : file := ⟨"h2", [], 1, 1⟩

def c2fold1 : RepairMatrix × GapCounts := addFileToRepairMatrix c2file [4] [] gcZero

def c2fold2 : RepairMatrix × GapCounts :=
  addFileToRepairMatrix c2file [4] c2fold1.1 c2fold1.2

/-- C2 counterexample: after the matrix-builder mutation that folds a file
whose chunk already has a matrix entry (repair.go line 395 folds `newFiles`
entries with no presence check, and lines 97-101 insert unconditionally), the
histogram invariant is broken: the single entry's bucket holds 2, so the
bucket does not match the entry count and the bucket sum (2) exceeds the
number of matrix entries (1). -/
theorem refold_breaks_histogram_invariant :
    gcSum c2fold2.2 2 = 2 ∧ c2fold2.1.length = 1 ∧
      ¬ histCoherent c2fold2.1 c2fold2.2 := by
  refine ⟨by decide, by decide, fun h => absurd (h.2 1) (by decide)⟩

/-- A one-chunk file, two pieces missing, one available worker; used for the
C3 idempotence counterexample. -/
def c3file : file := ⟨"h3", [], 2, 1⟩

def c3fold1 : RepairMatrix × GapCounts := addFileToRepairMatrix c3file [9] [] gcZero

def c3fold2 : RepairMatrix × GapCounts :=
  addFileToRepairMatrix c3file [9] c3fold1.1 c3fold1.2

/-- C3 counterexample: running the repair-matrix builder a second time over
the same file and worker set is not idempotent — the second run increments
the chunk's histogram bucket again (from 1 to 2), because the insert at
repair.go lines 97-101 carries no check whether the chunk already has an
entry. -/
theorem second_build_changes_histogram : c3fold2.2 1 ≠ c3fold1.2 1 := by decide

/-! ## Histogram bookkeeping lemmas -/

/-- Bucket count of a cons cell. -/
theorem bucketCount_cons (e : chunkID × chunkGaps) (m : RepairMatrix) (k : Nat) :
    bucketCount (e :: m) k = (if e.2.numGaps = k then 1 else 0) + bucketCount m k := by
  simp only [bucketCount, List.filter_cons]
  split_ifs with h h2 h3 <;> simp_all
  omega

/-- Bucket count of an appended list. -/
theorem bucketCount_append (m1 m2 : RepairMatrix) (k : Nat) :
    bucketCount (m1 ++ m2) k = bucketCount m1 k + bucketCount m2 k := by
  simp [bucketCount, List.filter_append]

/-- Pointwise reading of a bucket increment. -/
theorem gcInc_apply (gc : GapCounts) (b k : Nat) :
    gcInc gc b k = gc k + (if k = b then 1 else 0) := by
  simp only [gcInc]
  split_ifs <;> omega

/-- Pointwise reading of a bucket move. -/
theorem gcMove_apply (gc : GapCounts) (old new k : Nat) :
    gcMove gc old new k =
      gc k - (if k = old then 1 else 0) + (if k = new then 1 else 0) := by
  simp only [gcMove, gcInc, gcDec]
  split_ifs <;> omega

/-- Purging retired workers only removes entries from the contract list. -/
theorem purgeRetired_sublist (retired cs : List FileContractID) :
    List.Sublist (purgeRetired retired cs) cs := by
  induction retired generalizing cs with
  | nil => exact List.Sublist.refl cs
  | cons r rs ih => exact (ih (cs.erase r)).trans (List.erase_sublist r cs)

/-- The deprioritized-chunk bookkeeping keeps the cached gap count equal to
the minimum of the list lengths, and keeps the chunk's histogram bucket in
lock-step, relative to an ambient bucket context `C`. -/
theorem skipUpdate_hist (retired : List FileContractID) (cg : chunkGaps)
    (gc : GapCounts) (C : Nat → Int)
    (hmin : cg.numGaps = numGapsOf cg.contracts cg.pieces)
    (hgc : ∀ k, gc k = C k + (if cg.numGaps = k then 1 else 0)) :
    ((skipUpdate retired cg gc).1.numGaps =
      numGapsOf (skipUpdate retired cg gc).1.contracts
        (skipUpdate retired cg gc).1.pieces) ∧
    (∀ k, (skipUpdate retired cg gc).2 k =
      C k + (if (skipUpdate retired cg gc).1.numGaps = k then 1 else 0)) := by
  have hlen : (purgeRetired retired cg.contracts).length ≤ cg.contracts.length :=
    (purgeRetired_sublist retired cg.contracts).length_le
  by_cases h : (purgeRetired retired cg.contracts).length < cg.pieces.length ∧
      (purgeRetired retired cg.contracts).length < cg.numGaps
  · constructor
    · simp only [skipUpdate, if_pos h]
      unfold numGapsOf at hmin ⊢
      split_ifs at hmin ⊢ <;> omega
    · intro k
      simp only [skipUpdate, if_pos h]
      rw [gcMove_apply, hgc k]
      split_ifs <;> omega
  · constructor
    · simp only [skipUpdate, if_neg h]
      show cg.numGaps = _
      unfold numGapsOf at hmin ⊢
      split_ifs at hmin ⊢ <;> omega
    · intro k
      simp only [skipUpdate, if_neg h]
      exact hgc k

/-- The two spellings of a minimum of two numbers coincide. -/
theorem min_if (a b : Nat) : (if a < b then a else b) = if a ≤ b then a else b := by
  split_ifs <;> omega

/-- The dispatch step recomputes the cached gap count as the minimum of the
new contract and piece counts. -/
theorem dispatchChunk_numGaps_min (env : RepairEnv) (cid : chunkID)
    (cg : chunkGaps) (useful available : List FileContractID) (gc : GapCounts) :
    (dispatchChunk env cid cg useful available gc).gaps.numGaps =
      numGapsOf (dispatchChunk env cid cg useful available gc).gaps.contracts
        (dispatchChunk env cid cg useful available gc).gaps.pieces :=
  min_if _ _

/-- The dispatch step moves the histogram bucket from the old cached gap
count to the recomputed one. -/
theorem dispatchChunk_gc_eq (env : RepairEnv) (cid : chunkID) (cg : chunkGaps)
    (useful available : List FileContractID) (gc : GapCounts) :
    (dispatchChunk env cid cg useful available gc).gc =
      gcMove gc cg.numGaps (dispatchChunk env cid cg useful available gc).gaps.numGaps :=
  rfl

/-- The deprioritized-chunk bookkeeping never touches the piece list. -/
theorem skipUpdate_pieces (retired : List FileContractID) (cg : chunkGaps)
    (gc : GapCounts) : (skipUpdate retired cg gc).1.pieces = cg.pieces := by
  unfold skipUpdate
  by_cases h : (purgeRetired retired cg.contracts).length < cg.pieces.length ∧
    (purgeRetired retired cg.contracts).length < cg.numGaps
  · simp [h]
  · simp [h]

/-- The deprioritized-chunk bookkeeping replaces the contract list with the
purged one. -/
theorem skipUpdate_contracts (retired : List FileContractID) (cg : chunkGaps)
    (gc : GapCounts) :
    (skipUpdate retired cg gc).1.contracts = purgeRetired retired cg.contracts := by
  unfold skipUpdate
  by_cases h : (purgeRetired retired cg.contracts).length < cg.pieces.length ∧
    (purgeRetired retired cg.contracts).length < cg.numGaps
  · simp [h]
  · simp [h]

/-- Bucket count of a cons cell, cast to the histogram's value type. -/
theorem bucketCount_cons_int (cid : chunkID) (cg : chunkGaps)
    (m : RepairMatrix) (k : Nat) :
    (bucketCount ((cid, cg) :: m) k : Int) =
      (if cg.numGaps = k then 1 else 0) + (bucketCount m k : Int) := by
  rw [bucketCount_cons]
  split_ifs <;> push_cast <;> omega

/-- The candidate scan preserves the histogram invariant: relative to an
ambient bucket context `C`, every entry's cached gap count stays the minimum
of its two list lengths, and every histogram bucket keeps counting exactly
the entries that occupy it. -/
theorem scanMatrix_hist (env : RepairEnv) (mg : Nat)
    (retired available : List FileContractID) :
    ∀ (m : RepairMatrix) (gc : GapCounts) (C : Nat → Int),
      (∀ e ∈ m, e.2.numGaps = numGapsOf e.2.contracts e.2.pieces) →
      (∀ k, gc k = C k + (bucketCount m k : Int)) →
      (∀ e ∈ (scanMatrix env mg retired available m gc).matrix,
        e.2.numGaps = numGapsOf e.2.contracts e.2.pieces) ∧
      (∀ k, (scanMatrix env mg retired available m gc).gc k =
        C k + (bucketCount (scanMatrix env mg retired available m gc).matrix k : Int)) := by
  intro m
  induction m with
  | nil =>
    intro gc C hmin hgc
    constructor
    · intro e he
      rw [scanMatrix] at he
      simp at he
    · intro k
      show gc k = C k + (bucketCount (scanMatrix env mg retired available [] gc).matrix k : Int)
      rw [scanMatrix]
      simpa [bucketCount] using hgc k
  | cons e rest ih =>
    obtain ⟨cid, cg⟩ := e
    intro gc C hmin hgc
    have hmincg : cg.numGaps = numGapsOf cg.contracts cg.pieces :=
      hmin (cid, cg) (List.mem_cons_self _ _)
    have hminrest : ∀ e ∈ rest, e.2.numGaps = numGapsOf e.2.contracts e.2.pieces :=
      fun e he => hmin e (List.mem_cons_of_mem _ he)
    by_cases hb : mg ≥ 4 ∧ (available.filter fun w => decide (w ∈ cg.contracts)).length < 4
    · have heq : scanMatrix env mg retired available ((cid, cg) :: rest) gc =
          { scanMatrix env mg retired available rest (skipUpdate retired cg gc).2 with
            matrix := (cid, (skipUpdate retired cg gc).1) ::
              (scanMatrix env mg retired available rest (skipUpdate retired cg gc).2).matrix } := by
        rw [scanMatrix, if_pos hb]
      have hsk := skipUpdate_hist retired cg gc
        (fun k => C k + (bucketCount rest k : Int)) hmincg
        (fun k => by
          show gc k = (C k + (bucketCount rest k : Int)) +
            (if cg.numGaps = k then 1 else 0)
          rw [hgc k, bucketCount_cons_int]
          omega)
      have hsk2 : ∀ k, (skipUpdate retired cg gc).2 k =
          (C k + (bucketCount rest k : Int)) +
            (if (skipUpdate retired cg gc).1.numGaps = k then 1 else 0) :=
        hsk.2
      have hrec := ih (skipUpdate retired cg gc).2
        (fun k => C k + (if (skipUpdate retired cg gc).1.numGaps = k then 1 else 0))
        hminrest (fun k => by
          show (skipUpdate retired cg gc).2 k =
            (C k + (if (skipUpdate retired cg gc).1.numGaps = k then 1 else 0)) +
              (bucketCount rest k : Int)
          rw [hsk2 k]
          omega)
      have hrec2 : ∀ k,
          (scanMatrix env mg retired available rest (skipUpdate retired cg gc).2).gc k =
            (C k + (if (skipUpdate retired cg gc).1.numGaps = k then 1 else 0)) +
              (bucketCount (scanMatrix env mg retired available rest
                (skipUpdate retired cg gc).2).matrix k : Int) :=
        hrec.2
      rw [heq]
      constructor
      · intro e he
        rcases List.mem_cons.1 he with h | h
        · rw [h]
          exact hsk.1
        · exact hrec.1 e h
      · intro k
        show (scanMatrix env mg retired available rest (skipUpdate retired cg gc).2).gc k =
          C k + (bucketCount ((cid, (skipUpdate retired cg gc).1) ::
            (scanMatrix env mg retired available rest
              (skipUpdate retired cg gc).2).matrix) k : Int)
        rw [hrec2 k, bucketCount_cons_int]
        omega
    · by_cases hf : (!env.fileExists cid.filename || !env.trackingExists cid.filename ||
          !env.openOk cid.filename || !env.readOk cid || !env.encodeOk cid) = true
      · have heq : scanMatrix env mg retired available ((cid, cg) :: rest) gc =
            { scanMatrix env mg retired available rest gc with
              matrix := (cid, cg) ::
                (scanMatrix env mg retired available rest gc).matrix } := by
          rw [scanMatrix, if_neg hb, if_pos hf]
        have hrec := ih gc
          (fun k => C k + (if cg.numGaps = k then 1 else 0))
          hminrest (fun k => by
            show gc k = (C k + (if cg.numGaps = k then 1 else 0)) +
              (bucketCount rest k : Int)
            rw [hgc k, bucketCount_cons_int]
            omega)
        have hrec2 : ∀ k, (scanMatrix env mg retired available rest gc).gc k =
            (C k + (if cg.numGaps = k then 1 else 0)) +
              (bucketCount (scanMatrix env mg retired available rest gc).matrix k : Int) :=
          hrec.2
        rw [heq]
        constructor
        · intro e he
          rcases List.mem_cons.1 he with h | h
          · rw [h]
            exact hmincg
          · exact hrec.1 e h
        · intro k
          show (scanMatrix env mg retired available rest gc).gc k =
            C k + (bucketCount ((cid, cg) ::
              (scanMatrix env mg retired available rest gc).matrix) k : Int)
          rw [hrec2 k, bucketCount_cons_int]
          omega
      · have heq : scanMatrix env mg retired available ((cid, cg) :: rest) gc =
            ⟨(cid, (dispatchChunk env cid cg
                (available.filter fun w => decide (w ∈ cg.contracts)) available gc).gaps) :: rest,
              (dispatchChunk env cid cg
                (available.filter fun w => decide (w ∈ cg.contracts)) available gc).gc,
              (dispatchChunk env cid cg
                (available.filter fun w => decide (w ∈ cg.contracts)) available gc).available,
              (dispatchChunk env cid cg
                (available.filter fun w => decide (w ∈ cg.contracts)) available gc).sent,
              some cid⟩ := by
          rw [scanMatrix, if_neg hb, if_neg hf]
        rw [heq]
        constructor
        · intro e he
          rcases List.mem_cons.1 he with h | h
          · rw [h]
            exact dispatchChunk_numGaps_min env cid cg _ available gc
          · exact hminrest e h
        · intro k
          show (dispatchChunk env cid cg
              (available.filter fun w => decide (w ∈ cg.contracts)) available gc).gc k =
            C k + (bucketCount ((cid, (dispatchChunk env cid cg
              (available.filter fun w => decide (w ∈ cg.contracts))
                available gc).gaps) :: rest) k : Int)
          rw [dispatchChunk_gc_eq, gcMove_apply, hgc k, bucketCount_cons_int,
            bucketCount_cons_int]
          split_ifs <;> omega

/-- Bucket count of an appended list, cast to the histogram's value type. -/
theorem bucketCount_append_int (m1 m2 : RepairMatrix) (k : Nat) :
    (bucketCount (m1 ++ m2) k : Int) =
      (bucketCount m1 k : Int) + bucketCount m2 k := by
  rw [bucketCount_append]
  push_cast
  ring

/-- Inserting under a key that is absent appends the entry. -/
theorem matrixInsert_fresh (m : RepairMatrix) (cid : chunkID) (cg : chunkGaps)
    (h : cid ∉ m.map Prod.fst) :
    matrixInsert m cid cg = m ++ [(cid, cg)] := by
  unfold matrixInsert
  rw [if_neg]
  intro hany
  rcases List.any_eq_true.1 hany with ⟨e, he, heq⟩
  exact h (List.mem_map.2 ⟨e, he, of_decide_eq_true heq⟩)

/-- Folding a file all of whose chunks are absent from the matrix preserves
the histogram invariant (this is the epoch-start build and the fold of a
genuinely new file). -/
theorem addChunk_fold_hist (f : file) (aw : List FileContractID) :
    ∀ (l : List Nat) (m : RepairMatrix) (gc : GapCounts),
      histCoherent m gc → l.Nodup →
      (∀ i ∈ l, (⟨i, f.name⟩ : chunkID) ∉ m.map Prod.fst) →
      histCoherent (l.foldl (addChunkStep f aw) (m, gc)).1
        (l.foldl (addChunkStep f aw) (m, gc)).2 := by
  intro l
  induction l with
  | nil =>
    intro m gc h _ _
    simpa using h
  | cons i l ih =>
    intro m gc hco hnd hfresh
    rw [List.foldl_cons]
    by_cases hi : (pieceMap f i).length < f.numPieces
    · have hstep : addChunkStep f aw (m, gc) i =
          (m ++ [(⟨i, f.name⟩, buildGaps f aw i)],
            gcInc gc (buildGaps f aw i).numGaps) := by
        unfold addChunkStep
        rw [if_pos hi]
        show (matrixInsert m ⟨i, f.name⟩ (buildGaps f aw i),
          gcInc gc (buildGaps f aw i).numGaps) = _
        rw [matrixInsert_fresh m _ _ (hfresh i (List.mem_cons_self _ _))]
      rw [hstep]
      apply ih
      · constructor
        · intro e he
          rcases List.mem_append.1 he with h | h
          · exact hco.1 e h
          · rw [List.mem_singleton.1 h]
            rfl
        · intro k
          rw [gcInc_apply, hco.2 k, bucketCount_append_int, bucketCount_cons_int]
          have hz : (bucketCount [] k : Int) = 0 := by
            simp [bucketCount]
          rw [hz]
          split_ifs <;> omega
      · exact hnd.of_cons
      · intro j hj
        rw [List.map_append]
        intro hmem
        rcases List.mem_append.1 hmem with h | h
        · exact hfresh j (List.mem_cons_of_mem _ hj) h
        · simp only [List.map_cons, List.map_nil, List.mem_singleton] at h
          have : j = i := by
            have := congrArg chunkID.chunkIndex h
            simpa using this
          exact (List.nodup_cons.1 hnd).1 (this ▸ hj)
    · have hstep : addChunkStep f aw (m, gc) i = (m, gc) := by
        unfold addChunkStep
        rw [if_neg hi]
      rw [hstep]
      exact ih m gc hco hnd.of_cons
        (fun j hj => hfresh j (List.mem_cons_of_mem _ hj))

/-- Summing the buckets that dominate every entry's gap count counts each
matrix entry exactly once. -/
theorem bucket_sum (B : Nat) :
    ∀ m : RepairMatrix, (∀ e ∈ m, e.2.numGaps < B) →
      ∑ k ∈ Finset.range B, (bucketCount m k : Int) = m.length := by
  intro m
  induction m with
  | nil =>
    intro _
    simp [bucketCount]
  | cons e m ih =>
    intro hB
    obtain ⟨cid, cg⟩ := e
    have h1 : ∑ k ∈ Finset.range B, (bucketCount ((cid, cg) :: m) k : Int) =
        ∑ k ∈ Finset.range B,
          ((if cg.numGaps = k then (1 : Int) else 0) + (bucketCount m k : Int)) :=
      Finset.sum_congr rfl fun k _ => bucketCount_cons_int cid cg m k
    rw [h1, Finset.sum_add_distrib,
      ih (fun e he => hB e (List.mem_cons_of_mem _ he))]
    have h2 : ∑ k ∈ Finset.range B, (if cg.numGaps = k then (1 : Int) else 0) = 1 := by
      rw [Finset.sum_ite_eq]
      simp [Finset.mem_range.2 (hB (cid, cg) (List.mem_cons_self _ _))]
    rw [h2]
    simp only [List.length_cons]
    push_cast
    ring

/-! ## Claim C2 (amended): the histogram invariant -/

/-- C2 (amended): the histogram invariant — every entry's cached gap count is
`min(len(contracts), len(pieces))` and every bucket counts exactly the
entries occupying it, hence the bucket sum equals the matrix size — holds
initially and is preserved by every scheduler mutation (every
deprioritized-chunk update and every dispatch performed by a candidate scan),
and by folding a file none of whose chunks is already present in the matrix.
(Result handling never touches the matrix or histogram.)  Folding a file that
already has matrix entries breaks it, as the counterexample shows. -/
theorem histogram_invariant_preserved :
    (∀ (env : RepairEnv) (mg : Nat) (retired available : List FileContractID)
        (m : RepairMatrix) (gc : GapCounts), histCoherent m gc →
      histCoherent (scanMatrix env mg retired available m gc).matrix
        (scanMatrix env mg retired available m gc).gc) ∧
    (∀ (f : file) (aw : List FileContractID) (m : RepairMatrix) (gc : GapCounts),
      histCoherent m gc →
      (∀ i : Nat, (⟨i, f.name⟩ : chunkID) ∉ m.map Prod.fst) →
      histCoherent (addFileToRepairMatrix f aw m gc).1
        (addFileToRepairMatrix f aw m gc).2) ∧
    histCoherent [] gcZero ∧
    (∀ (m : RepairMatrix) (gc : GapCounts) (B : Nat), histCoherent m gc →
      (∀ e ∈ m, e.2.numGaps < B) → gcSum gc B = m.length) := by
  refine ⟨?_, ?_, ?_, ?_⟩
  · intro env mg retired available m gc hco
    have h := scanMatrix_hist env mg retired available m gc (fun _ => 0)
      hco.1 (fun k => by
        show gc k = 0 + (bucketCount m k : Int)
        rw [hco.2 k]
        omega)
    refine ⟨h.1, fun k => ?_⟩
    have h2 : (scanMatrix env mg retired available m gc).gc k =
        0 + (bucketCount (scanMatrix env mg retired available m gc).matrix k : Int) :=
      h.2 k
    omega
  · intro f aw m gc hco hfresh
    exact addChunk_fold_hist f aw (List.range f.numChunks) m gc hco
      (List.nodup_range _) (fun i _ => hfresh i)
  · exact ⟨fun e he => absurd he (List.not_mem_nil e), fun k => by simp [gcZero, bucketCount]⟩
  · intro m gc B hco hB
    unfold gcSum
    rw [Finset.sum_congr rfl fun k _ => hco.2 k]
    exact bucket_sum B m hB

/-- Witness for C2 (amended): the empty state is coherent, and folding a
fresh file into it preserves coherence. -/
theorem histogram_invariant_preserved_witness :
    histCoherent c2fold1.1 c2fold1.2 :=
  histogram_invariant_preserved.2.1 c2file [4] [] gcZero
    histogram_invariant_preserved.2.2.1 (fun i => by simp)

/-! ## Claim C3 (amended): what a second builder run actually does -/

/-- The inserted entry is present after a map-style insert. -/
theorem matrixInsert_mem_self (m : RepairMatrix) (cid : chunkID) (cg : chunkGaps) :
    (cid, cg) ∈ matrixInsert m cid cg := by
  unfold matrixInsert
  split_ifs with h
  · rcases List.any_eq_true.1 h with ⟨e, he, heq⟩
    exact List.mem_map.2 ⟨e, he, by rw [if_pos (of_decide_eq_true heq)]⟩
  · exact List.mem_append.2 (Or.inr (List.mem_singleton.2 rfl))

/-- Entries under other keys survive an insert. -/
theorem matrixInsert_mem_of_ne (m : RepairMatrix) (cid : chunkID)
    (cg : chunkGaps) (e : chunkID × chunkGaps) (he : e ∈ m) (hne : e.1 ≠ cid) :
    e ∈ matrixInsert m cid cg := by
  unfold matrixInsert
  split_ifs with h
  · exact List.mem_map.2 ⟨e, he, by rw [if_neg hne]⟩
  · exact List.mem_append.2 (Or.inl he)

/-- Inserting preserves duplicate-freedom of the key list. -/
theorem matrixInsert_keys_nodup (m : RepairMatrix) (cid : chunkID)
    (cg : chunkGaps) (hnd : (m.map Prod.fst).Nodup) :
    ((matrixInsert m cid cg).map Prod.fst).Nodup := by
  unfold matrixInsert
  split_ifs with h
  · have hkeys : (m.map fun e => if e.1 = cid then (cid, cg) else e).map Prod.fst =
        m.map Prod.fst := by
      rw [List.map_map]
      refine List.map_congr_left fun e _ => ?_
      by_cases he : e.1 = cid
      · simp [he]
      · simp [he]
    rw [hkeys]
    exact hnd
  · rw [List.map_append]
    have hnot : cid ∉ m.map Prod.fst := by
      intro hmem
      rcases List.mem_map.1 hmem with ⟨e, he, heq⟩
      exact h (List.any_eq_true.2 ⟨e, he, decide_eq_true heq⟩)
    simp only [List.map_cons, List.map_nil]
    exact List.Nodup.append hnd (List.nodup_singleton cid)
      (fun a ha hb => hnot (by rwa [List.mem_singleton.1 hb] at ha))

/-- Inserting an entry that is already present, under unique keys, changes
nothing. -/
theorem matrixInsert_of_mem (m : RepairMatrix) (cid : chunkID) (cg : chunkGaps)
    (hmem : (cid, cg) ∈ m) (hnd : (m.map Prod.fst).Nodup) :
    matrixInsert m cid cg = m := by
  unfold matrixInsert
  rw [if_pos (List.any_eq_true.2 ⟨(cid, cg), hmem, by simp⟩)]
  have : ∀ e ∈ m, (if e.1 = cid then (cid, cg) else e) = e := by
    intro e he
    by_cases hecid : e.1 = cid
    · rw [if_pos hecid]
      exact (List.inj_on_of_nodup_map hnd he hmem (by simpa using hecid)).symm
    · rw [if_neg hecid]
  calc m.map (fun e => if e.1 = cid then (cid, cg) else e) = m.map id :=
        List.map_congr_left this
    _ = m := List.map_id m

/-- The number of incomplete chunks of `l` whose fresh gap record lands in
bucket `k`. -/
def incompleteCountIn (f : file) (aw : List FileContractID)
    (l : List Nat) (k : Nat) : Nat :=
  (l.filter fun i => decide ((pieceMap f i).length < f.numPieces ∧
    (buildGaps f aw i).numGaps = k)).length

/-- A builder fold keeps keys duplicate-free, keeps entries under untouched
keys, and records each incomplete chunk's freshly computed gap record. -/
theorem addChunk_fold_mem (f : file) (aw : List FileContractID) :
    ∀ (l : List Nat) (m : RepairMatrix) (gc : GapCounts),
      (m.map Prod.fst).Nodup → l.Nodup →
      (((l.foldl (addChunkStep f aw) (m, gc)).1.map Prod.fst).Nodup ∧
       (∀ e ∈ m, (∀ j ∈ l, e.1 ≠ ⟨j, f.name⟩) →
          e ∈ (l.foldl (addChunkStep f aw) (m, gc)).1) ∧
       (∀ i ∈ l, (pieceMap f i).length < f.numPieces →
          ((⟨i, f.name⟩ : chunkID), buildGaps f aw i) ∈
            (l.foldl (addChunkStep f aw) (m, gc)).1)) := by
  intro l
  induction l with
  | nil =>
    intro m gc hnd _
    exact ⟨hnd, fun e he _ => he, fun i hi => absurd hi (List.not_mem_nil i)⟩
  | cons i l ih =>
    intro m gc hnd hlnd
    rw [List.foldl_cons]
    have hstepm : (addChunkStep f aw (m, gc) i).1 =
        (if (pieceMap f i).length < f.numPieces then
          matrixInsert m ⟨i, f.name⟩ (buildGaps f aw i) else m) := by
      unfold addChunkStep
      split_ifs <;> rfl
    have hndstep : ((addChunkStep f aw (m, gc) i).1.map Prod.fst).Nodup := by
      rw [hstepm]
      split_ifs
      · exact matrixInsert_keys_nodup m _ _ hnd
      · exact hnd
    have hrec := ih (addChunkStep f aw (m, gc) i).1 (addChunkStep f aw (m, gc) i).2
      hndstep hlnd.of_cons
    have hfold : l.foldl (addChunkStep f aw) (addChunkStep f aw (m, gc) i) =
        l.foldl (addChunkStep f aw)
          ((addChunkStep f aw (m, gc) i).1, (addChunkStep f aw (m, gc) i).2) := by
      rfl
    refine ⟨by rw [hfold]; exact hrec.1, ?_, ?_⟩
    · intro e he hkeys
      rw [hfold]
      refine hrec.2.1 e ?_ (fun j hj => hkeys j (List.mem_cons_of_mem _ hj))
      rw [hstepm]
      split_ifs
      · exact matrixInsert_mem_of_ne m _ _ e he (hkeys i (List.mem_cons_self _ _))
      · exact he
    · intro i2 hi2 hinc
      rw [hfold]
      rcases List.mem_cons.1 hi2 with h | h
      · subst h
        refine hrec.2.1 (⟨i2, f.name⟩, buildGaps f aw i2) ?_ ?_
        · rw [hstepm, if_pos hinc]
          exact matrixInsert_mem_self m _ _
        · intro j hj
          intro hkeq
          have : i2 = j := by
            have := congrArg chunkID.chunkIndex hkeq
            simpa using this
          exact (List.nodup_cons.1 hlnd).1 (this ▸ hj)
      · exact hrec.2.2 i2 h hinc

/-- Re-running the builder fold when every incomplete chunk's record is
already present leaves the matrix unchanged and adds one increment per
incomplete chunk to the histogram. -/
theorem addChunk_fold_noop (f : file) (aw : List FileContractID) :
    ∀ (l : List Nat) (m : RepairMatrix) (gc : GapCounts),
      (m.map Prod.fst).Nodup →
      (∀ i ∈ l, (pieceMap f i).length < f.numPieces →
        ((⟨i, f.name⟩ : chunkID), buildGaps f aw i) ∈ m) →
      (l.foldl (addChunkStep f aw) (m, gc)).1 = m ∧
      ∀ k, (l.foldl (addChunkStep f aw) (m, gc)).2 k =
        gc k + (incompleteCountIn f aw l k : Int) := by
  intro l
  induction l with
  | nil =>
    intro m gc _ _
    exact ⟨rfl, fun k => by simp [incompleteCountIn]⟩
  | cons i l ih =>
    intro m gc hnd hmem
    rw [List.foldl_cons]
    by_cases hi : (pieceMap f i).length < f.numPieces
    · have hstep : addChunkStep f aw (m, gc) i =
          (m, gcInc gc (buildGaps f aw i).numGaps) := by
        unfold addChunkStep
        rw [if_pos hi]
        show (matrixInsert m ⟨i, f.name⟩ (buildGaps f aw i),
          gcInc gc (buildGaps f aw i).numGaps) = _
        rw [matrixInsert_of_mem m _ _ (hmem i (List.mem_cons_self _ _) hi) hnd]
      rw [hstep]
      obtain ⟨hm, hgc⟩ := ih m (gcInc gc (buildGaps f aw i).numGaps) hnd
        (fun j hj => hmem j (List.mem_cons_of_mem _ hj))
      refine ⟨hm, fun k => ?_⟩
      rw [hgc k, gcInc_apply]
      have hcnt : incompleteCountIn f aw (i :: l) k =
          (if (buildGaps f aw i).numGaps = k then 1 else 0) +
            incompleteCountIn f aw l k := by
        simp only [incompleteCountIn, List.filter_cons]
        by_cases hbk : (buildGaps f aw i).numGaps = k
        · simp [hi, hbk, Nat.add_comm]
        · simp [hi, hbk]
      rw [hcnt]
      split_ifs <;> push_cast <;> omega
    · have hstep : addChunkStep f aw (m, gc) i = (m, gc) := by
        unfold addChunkStep
        rw [if_neg hi]
      rw [hstep]
      obtain ⟨hm, hgc⟩ := ih m gc hnd (fun j hj => hmem j (List.mem_cons_of_mem _ hj))
      refine ⟨hm, fun k => ?_⟩
      rw [hgc k]
      have hcnt : incompleteCountIn f aw (i :: l) k = incompleteCountIn f aw l k := by
        simp only [incompleteCountIn, List.filter_cons]
        simp [hi]
      rw [hcnt]

/-- C3 (amended): running the repair-matrix builder a second time over the
same file and worker set (the matrix having unique keys, as the program
maintains) leaves the matrix exactly as the first run left it — every
incomplete chunk's entry is overwritten with an identical record, so no entry
is inserted and no gap record changes — but it is not idempotent on the
histogram: each incomplete chunk's bucket is incremented a second time. -/
theorem second_build_effect (f : file) (aw : List FileContractID)
    (m : RepairMatrix) (gc : GapCounts) (hnd : (m.map Prod.fst).Nodup) :
    (addFileToRepairMatrix f aw (addFileToRepairMatrix f aw m gc).1
        (addFileToRepairMatrix f aw m gc).2).1 =
      (addFileToRepairMatrix f aw m gc).1 ∧
    ∀ k, (addFileToRepairMatrix f aw (addFileToRepairMatrix f aw m gc).1
        (addFileToRepairMatrix f aw m gc).2).2 k =
      (addFileToRepairMatrix f aw m gc).2 k +
        (incompleteCountIn f aw (List.range f.numChunks) k : Int) := by
  have h1 := addChunk_fold_mem f aw (List.range f.numChunks) m gc hnd
    (List.nodup_range _)
  exact addChunk_fold_noop f aw (List.range f.numChunks)
    (addFileToRepairMatrix f aw m gc).1 (addFileToRepairMatrix f aw m gc).2
    h1.1 (fun i hi hinc => h1.2.2 i hi hinc)

/-- Witness for C3 (amended) at the concrete one-chunk file. -/
theorem second_build_effect_witness :
    c3fold2.1 = c3fold1.1 ∧
      ∀ k, c3fold2.2 k = c3fold1.2 k +
        (incompleteCountIn c3file [9] (List.range c3file.numChunks) k : Int) :=
  second_build_effect c3file [9] [] gcZero (by simp)

/-! ## Claim C4: effects of dispatching one accepted chunk -/

/-- Folding `List.erase` over a duplicate-free list removes exactly the
erased elements and keeps the list duplicate-free. -/
theorem foldl_erase_mem_iff (us : List Nat) :
    ∀ l : List Nat, l.Nodup →
      (us.foldl (fun a w => a.erase w) l).Nodup ∧
        ∀ y, y ∈ us.foldl (fun a w => a.erase w) l ↔ y ∈ l ∧ y ∉ us := by
  induction us with
  | nil => exact fun l h => ⟨h, fun y => by simp⟩
  | cons w us ih =>
    intro l h
    obtain ⟨hn, hm⟩ := ih (l.erase w) (h.erase w)
    refine ⟨hn, fun y => ?_⟩
    rw [List.foldl_cons, hm y]
    constructor
    · rintro ⟨hy, hyus⟩
      obtain ⟨hyw, hyl⟩ := h.mem_erase_iff.1 hy
      exact ⟨hyl, by simp [hyw, hyus]⟩
    · rintro ⟨hy, hyn⟩
      have hyw : y ≠ w := fun e => hyn (e ▸ List.mem_cons_self w us)
      exact ⟨(List.mem_erase_of_ne hyw).2 hy,
        fun c => hyn (List.mem_cons_of_mem _ c)⟩

/-- C4: for an accepted candidate chunk whose source read, encode, and
encrypt steps all succeed, the scan sends exactly
`min(len(usefulWorkers), len(pieces))` work items, the `i`-th carrying piece
index `pieces[i]` to worker `usefulWorkers[i]`; each used worker leaves the
available set and its contract id leaves the chunk's missing-contract set;
the consumed prefix is dropped from the missing-piece list; the cached gap
count is recomputed and the histogram bucket moved; and no other chunk is
touched or dispatched in the same scan. -/
theorem dispatch_effects (env : RepairEnv) (mg : Nat)
    (retired available : List FileContractID) (cid : chunkID) (cg : chunkGaps)
    (rest : RepairMatrix) (gc : GapCounts)
    (hbatch : ¬ (mg ≥ 4 ∧
      (available.filter fun w => decide (w ∈ cg.contracts)).length < 4))
    (hfile : env.fileExists cid.filename = true)
    (htrack : env.trackingExists cid.filename = true)
    (hopen : env.openOk cid.filename = true)
    (hread : env.readOk cid = true)
    (hencode : env.encodeOk cid = true)
    (hencrypt : ∀ j, env.encryptOk cid j = true)
    (havail : available.Nodup) (hcontracts : cg.contracts.Nodup) :
    let useful := available.filter fun w => decide (w ∈ cg.contracts)
    let n := min useful.length cg.pieces.length
    let r := scanMatrix env mg retired available ((cid, cg) :: rest) gc
    r.sent.length = n ∧
    (∀ i, i < n → r.sent.getD i ⟨0, 0, 0, 0⟩ =
      ⟨cid.chunkIndex, cg.pieces.getD i 0,
        env.pieceData cid (cg.pieces.getD i 0), useful.getD i 0⟩) ∧
    (∃ cg2 : chunkGaps, r.matrix = (cid, cg2) :: rest ∧
      cg2.pieces = cg.pieces.drop n ∧
      (∀ c, c ∈ cg2.contracts ↔ c ∈ cg.contracts ∧ c ∉ useful.take n) ∧
      cg2.numGaps = numGapsOf cg2.contracts cg2.pieces ∧
      r.gc = gcMove gc cg.numGaps cg2.numGaps) ∧
    (∀ w, w ∈ r.available ↔ w ∈ available ∧ w ∉ useful.take n) ∧
    r.dispatched = some cid := by
  intro useful n r
  have hr : r = ⟨(cid, (dispatchChunk env cid cg useful available gc).gaps) :: rest,
      (dispatchChunk env cid cg useful available gc).gc,
      (dispatchChunk env cid cg useful available gc).available,
      (dispatchChunk env cid cg useful available gc).sent, some cid⟩ := by
    show scanMatrix env mg retired available ((cid, cg) :: rest) gc = _
    rw [scanMatrix]
    rw [if_neg hbatch, if_neg (by simp [hfile, htrack, hopen, hread, hencode])]
  have husefulnodup : useful.Nodup := havail.filter _
  have husednodup : (useful.take n).Nodup := husefulnodup.sublist (List.take_sublist n useful)
  refine ⟨?_, ?_, ?_, ?_, ?_⟩
  · rw [hr]
    simp [dispatchChunk]
  · intro i hi
    rw [hr]
    show ((List.range n).map _).getD i _ = _
    rw [List.getD_eq_getElem _ _ (by simpa using hi)]
    simp only [List.getElem_map, List.getElem_range]
    simp [encryptedPiece, hencrypt]
  · refine ⟨(dispatchChunk env cid cg useful available gc).gaps, by rw [hr], rfl, ?_, ?_, ?_⟩
    · intro c
      show c ∈ (useful.take n).foldl (fun a w => a.erase w) cg.contracts ↔ _
      exact (foldl_erase_mem_iff (useful.take n) cg.contracts hcontracts).2 c
    · exact dispatchChunk_numGaps_min env cid cg useful available gc
    · rw [hr]
      exact dispatchChunk_gc_eq env cid cg useful available gc
  · intro w
    rw [hr]
    show w ∈ (useful.take n).foldl (fun a w => a.erase w) available ↔ _
    exact (foldl_erase_mem_iff (useful.take n) available havail).2 w
  · rw [hr]

/-- Witness for C4: scenario with two useful workers and two missing pieces,
all external calls succeeding. -/
theorem dispatch_effects_witness :
    let cg : chunkGaps := ⟨[10, 20, 30], [1, 2], 2⟩
    let useful := [10, 20].filter fun w => decide (w ∈ cg.contracts)
    let n := min useful.length cg.pieces.length
    let r := scanMatrix allOkEnv 2 [] [10, 20] [(⟨0, "w"⟩, cg)] gcOne
    r.sent.length = n ∧
    (∀ i, i < n → r.sent.getD i ⟨0, 0, 0, 0⟩ =
      ⟨(0 : Nat), cg.pieces.getD i 0,
        allOkEnv.pieceData ⟨0, "w"⟩ (cg.pieces.getD i 0), useful.getD i 0⟩) ∧
    (∃ cg2 : chunkGaps, r.matrix = (⟨0, "w"⟩, cg2) :: [] ∧
      cg2.pieces = cg.pieces.drop n ∧
      (∀ c, c ∈ cg2.contracts ↔ c ∈ cg.contracts ∧ c ∉ useful.take n) ∧
      cg2.numGaps = numGapsOf cg2.contracts cg2.pieces ∧
      r.gc = gcMove gcOne cg.numGaps cg2.numGaps) ∧
    (∀ w, w ∈ r.available ↔ w ∈ [10, 20] ∧ w ∉ useful.take n) ∧
    r.dispatched = some ⟨0, "w"⟩ :=
  dispatch_effects allOkEnv 2 [] [10, 20] ⟨0, "w"⟩ ⟨[10, 20, 30], [1, 2], 2⟩ [] gcOne
    (by decide) rfl rfl rfl rfl rfl (fun _ => rfl) (by decide) (by decide)

/-! ## Claim C5: the batching threshold -/

/-- C5: when `maxGaps >= 4`, a scanned chunk with fewer than four useful
workers is not dispatched to in that iteration — the only mutations applied
to it are the purge of retired workers from its missing-contract list and the
resulting gap-count/histogram update, and the scan continues with the
remaining chunks; when `maxGaps < 4`, a scanned chunk is accepted for
dispatch as soon as any useful worker is available (external calls
permitting). -/
theorem batching_threshold (env : RepairEnv) (mg : Nat)
    (retired available : List FileContractID) (cid : chunkID) (cg : chunkGaps)
    (rest : RepairMatrix) (gc : GapCounts) :
    let useful := available.filter fun w => decide (w ∈ cg.contracts)
    let r := scanMatrix env mg retired available ((cid, cg) :: rest) gc
    (mg ≥ 4 → useful.length < 4 →
      let u := skipUpdate retired cg gc
      let rr := scanMatrix env mg retired available rest u.2
      r.sent = rr.sent ∧ r.dispatched = rr.dispatched ∧
      r.available = rr.available ∧ r.matrix = (cid, u.1) :: rr.matrix ∧
      u.1.pieces = cg.pieces ∧
      u.1.contracts = purgeRetired retired cg.contracts) ∧
    (mg < 4 → useful ≠ [] →
      env.fileExists cid.filename = true →
      env.trackingExists cid.filename = true →
      env.openOk cid.filename = true →
      env.readOk cid = true → env.encodeOk cid = true →
      r.dispatched = some cid ∧
      r.sent.length = min useful.length cg.pieces.length) := by
  intro useful r
  constructor
  · intro hmg hlen u rr
    have hr : r = { rr with matrix := (cid, u.1) :: rr.matrix } := by
      show scanMatrix env mg retired available ((cid, cg) :: rest) gc = _
      rw [scanMatrix, if_pos ⟨hmg, hlen⟩]
    exact ⟨by rw [hr], by rw [hr], by rw [hr], by rw [hr],
      skipUpdate_pieces retired cg gc, skipUpdate_contracts retired cg gc⟩
  · intro hmg hne hfile htrack hopen hread hencode
    have hr : r = ⟨(cid, (dispatchChunk env cid cg useful available gc).gaps) :: rest,
        (dispatchChunk env cid cg useful available gc).gc,
        (dispatchChunk env cid cg useful available gc).available,
        (dispatchChunk env cid cg useful available gc).sent, some cid⟩ := by
      show scanMatrix env mg retired available ((cid, cg) :: rest) gc = _
      rw [scanMatrix]
      rw [if_neg (by omega : ¬ (mg ≥ 4 ∧ useful.length < 4)),
        if_neg (by simp [hfile, htrack, hopen, hread, hencode])]
    rw [hr]
    exact ⟨rfl, by simp [dispatchChunk]⟩

/-- Witness for C5: the skip branch at `maxGaps = 5` with two useful workers,
and the accept branch at `maxGaps = 2` with one useful worker. -/
theorem batching_threshold_witness :
    ((5 : Nat) ≥ 4 →
      ([10, 20].filter fun w =>
        decide (w ∈ (chunkGaps.mk [10, 20, 30] [1, 2] 2).contracts)).length < 4 →
      let u := skipUpdate [] ⟨[10, 20, 30], [1, 2], 2⟩ gcOne
      let rr := scanMatrix allOkEnv 5 [] [10, 20] [] u.2
      let r := scanMatrix allOkEnv 5 [] [10, 20]
        [(⟨0, "b"⟩, ⟨[10, 20, 30], [1, 2], 2⟩)] gcOne
      r.sent = rr.sent ∧ r.dispatched = rr.dispatched ∧
      r.available = rr.available ∧ r.matrix = (⟨0, "b"⟩, u.1) :: rr.matrix ∧
      u.1.pieces = (chunkGaps.mk [10, 20, 30] [1, 2] 2).pieces ∧
      u.1.contracts = purgeRetired [] (chunkGaps.mk [10, 20, 30] [1, 2] 2).contracts) ∧
    ((2 : Nat) < 4 →
      ([10].filter fun w =>
        decide (w ∈ (chunkGaps.mk [10] [1] 1).contracts)) ≠ [] →
      allOkEnv.fileExists "b2" = true → allOkEnv.trackingExists "b2" = true →
      allOkEnv.openOk "b2" = true → allOkEnv.readOk ⟨0, "b2"⟩ = true →
      allOkEnv.encodeOk ⟨0, "b2"⟩ = true →
      (scanMatrix allOkEnv 2 [] [10] [(⟨0, "b2"⟩, ⟨[10], [1], 1⟩)] gcOne).dispatched =
        some ⟨0, "b2"⟩ ∧
      (scanMatrix allOkEnv 2 [] [10] [(⟨0, "b2"⟩, ⟨[10], [1], 1⟩)] gcOne).sent.length =
        min ([10].filter fun w =>
          decide (w ∈ (chunkGaps.mk [10] [1] 1).contracts)).length
          (chunkGaps.mk [10] [1] 1).pieces.length) :=
  ⟨(batching_threshold allOkEnv 5 [] [10, 20] ⟨0, "b"⟩ ⟨[10, 20, 30], [1, 2], 2⟩ [] gcOne).1,
   (batching_threshold allOkEnv 2 [] [10] ⟨0, "b2"⟩ ⟨[10], [1], 1⟩ [] gcOne).2⟩

/-! ## Claim C9: worker-set inclusions across scheduler steps -/

/-- Indexing a prefix of a list through `List.range`. -/
theorem range_map_getD (l : List FileContractID) (n : Nat) (h : n ≤ l.length) :
    (List.range n).map (fun i => l.getD i 0) = l.take n := by
  apply List.ext_getElem
  · simp [h]
  · intro i h1 h2
    simp only [List.getElem_map, List.getElem_range, List.getElem_take]
    rw [List.getD_eq_getElem]

/-- The workers to whom a scan handed work items. -/
def ScanResult.sentWorkers (r : ScanResult) : List FileContractID :=
  r.sent.map uploadWork.workerID

/-- Worker-set effects of one candidate scan: starting from a duplicate-free
available set, the new available set is a duplicate-free subset of the old
one, the workers given work are duplicate-free, and each of them came out of
the available set and is no longer in it. -/
theorem scanMatrix_workers (env : RepairEnv) (mg : Nat)
    (retired : List FileContractID) :
    ∀ (m : RepairMatrix) (available : List FileContractID) (gc : GapCounts),
      available.Nodup →
      ((scanMatrix env mg retired available m gc).available.Nodup ∧
       (scanMatrix env mg retired available m gc).available ⊆ available ∧
       (scanMatrix env mg retired available m gc).sentWorkers.Nodup ∧
       (∀ w ∈ (scanMatrix env mg retired available m gc).sentWorkers,
          w ∈ available ∧ w ∉ (scanMatrix env mg retired available m gc).available)) := by
  intro m
  induction m with
  | nil =>
    intro available gc hnd
    rw [scanMatrix]
    exact ⟨hnd, fun w hw => hw, List.nodup_nil, fun w hw => absurd hw (List.not_mem_nil w)⟩
  | cons e rest ih =>
    obtain ⟨cid, cg⟩ := e
    intro available gc hnd
    by_cases hb : mg ≥ 4 ∧ (available.filter fun w => decide (w ∈ cg.contracts)).length < 4
    · have heq : scanMatrix env mg retired available ((cid, cg) :: rest) gc =
          { scanMatrix env mg retired available rest (skipUpdate retired cg gc).2 with
            matrix := (cid, (skipUpdate retired cg gc).1) ::
              (scanMatrix env mg retired available rest (skipUpdate retired cg gc).2).matrix } := by
        rw [scanMatrix, if_pos hb]
      have hrec := ih available (skipUpdate retired cg gc).2 hnd
      rw [heq]
      exact hrec
    · by_cases hf : (!env.fileExists cid.filename || !env.trackingExists cid.filename ||
          !env.openOk cid.filename || !env.readOk cid || !env.encodeOk cid) = true
      · have heq : scanMatrix env mg retired available ((cid, cg) :: rest) gc =
            { scanMatrix env mg retired available rest gc with
              matrix := (cid, cg) ::
                (scanMatrix env mg retired available rest gc).matrix } := by
          rw [scanMatrix, if_neg hb, if_pos hf]
        have hrec := ih available gc hnd
        rw [heq]
        exact hrec
      · have heq : scanMatrix env mg retired available ((cid, cg) :: rest) gc =
            ⟨(cid, (dispatchChunk env cid cg
                (available.filter fun w => decide (w ∈ cg.contracts)) available gc).gaps) :: rest,
              (dispatchChunk env cid cg
                (available.filter fun w => decide (w ∈ cg.contracts)) available gc).gc,
              (dispatchChunk env cid cg
                (available.filter fun w => decide (w ∈ cg.contracts)) available gc).available,
              (dispatchChunk env cid cg
                (available.filter fun w => decide (w ∈ cg.contracts)) available gc).sent,
              some cid⟩ := by
          rw [scanMatrix, if_neg hb, if_neg hf]
        rw [heq]
        have husefulnodup : (available.filter fun w => decide (w ∈ cg.contracts)).Nodup :=
          hnd.filter _
        have husefulsub : (available.filter fun w => decide (w ∈ cg.contracts)) ⊆ available :=
          fun w hw => List.mem_of_mem_filter hw
        have hn : min (available.filter fun w => decide (w ∈ cg.contracts)).length
            cg.pieces.length ≤
            (available.filter fun w => decide (w ∈ cg.contracts)).length :=
          Nat.min_le_left _ _
        have hused : ((available.filter fun w => decide (w ∈ cg.contracts)).take
            (min (available.filter fun w => decide (w ∈ cg.contracts)).length
              cg.pieces.length)).Nodup :=
          husefulnodup.sublist (List.take_sublist _ _)
        have hfold := foldl_erase_mem_iff
          ((available.filter fun w => decide (w ∈ cg.contracts)).take
            (min (available.filter fun w => decide (w ∈ cg.contracts)).length
              cg.pieces.length)) available hnd
        have hsent : (dispatchChunk env cid cg
            (available.filter fun w => decide (w ∈ cg.contracts))
              available gc).sent.map uploadWork.workerID =
            (available.filter fun w => decide (w ∈ cg.contracts)).take
              (min (available.filter fun w => decide (w ∈ cg.contracts)).length
                cg.pieces.length) := by
          show ((List.range _).map _).map uploadWork.workerID = _
          rw [List.map_map]
          exact range_map_getD _ _ hn
        refine ⟨hfold.1, fun w hw => ((hfold.2 w).1 hw).1, ?_, ?_⟩
        · show ((dispatchChunk env cid cg _ available gc).sent.map uploadWork.workerID).Nodup
          rw [hsent]
          exact hused
        · intro w hw
          have hw2 : w ∈ (available.filter fun w => decide (w ∈ cg.contracts)).take
              (min (available.filter fun w => decide (w ∈ cg.contracts)).length
                cg.pieces.length) := by
            rw [← hsent]
            exact hw
          refine ⟨husefulsub (List.take_subset _ _ hw2), fun hmem => ?_⟩
          exact ((hfold.2 w).1 hmem).2 hw2

/-- Full scheduler state of one epoch, extended with the ghost list
`outstanding` of workers currently holding an in-flight work item: a worker
enters it when a work item is sent to its queue and leaves it when its result
is consumed from the shared channel. -/
structure SchedState where
  matrix : RepairMatrix
  gc : GapCounts
  workerPool : WorkerPool
  eligible : List FileContractID
  activeWorkers : List FileContractID
  availableWorkers : List FileContractID
  outstanding : List FileContractID
  retiredWorkers : List FileContractID
  need : Int

/-- Result handling on the full state (repair.go lines 357-381), through
`handleResult`, with the ghost `outstanding` entry consumed. -/
def applyResult (now : Nat) (s : SchedState) (fu : finishedUpload) : SchedState :=
  let t := handleResult now
    ⟨s.workerPool, s.activeWorkers, s.availableWorkers, s.retiredWorkers, s.need⟩ fu
  { s with
    workerPool := t.workerPool
    activeWorkers := t.activeWorkers
    availableWorkers := t.availableWorkers
    retiredWorkers := t.retiredWorkers
    need := t.need
    outstanding := s.outstanding.erase fu.workerID }

/-- One candidate scan (possibly dispatching one chunk) on the full state. -/
def applyScan (env : RepairEnv) (mg : Nat) (s : SchedState) : SchedState :=
  let r := scanMatrix env mg s.retiredWorkers s.availableWorkers s.matrix s.gc
  { s with
    matrix := r.matrix
    gc := r.gc
    availableWorkers := r.available
    outstanding := s.outstanding ++ r.sentWorkers }

/-- New-file folding (repair.go lines 389-399): the builder runs with the
active-worker set; the worker sets themselves are untouched. -/
def applyNewFile (f : file) (s : SchedState) : SchedState :=
  let p := addFileToRepairMatrix f s.activeWorkers s.matrix s.gc
  { s with matrix := p.1, gc := p.2 }

/-- One scheduler step of an epoch.  The result steps carry the interface
assumption that every consumed result comes from a worker with an in-flight
work item (each item sent to a worker produces exactly one result on the
shared channel). -/
inductive SchedStep (env : RepairEnv) (now : Nat) : SchedState → SchedState → Prop
  | scan (s : SchedState) (mg : Nat) : SchedStep env now s (applyScan env mg s)
  | result (s : SchedState) (fu : finishedUpload)
      (hout : fu.workerID ∈ s.outstanding) :
      SchedStep env now s (applyResult now s fu)
  | newFile (s : SchedState) (f : file) : SchedStep env now s (applyNewFile f s)

/-- Epoch-start state (repair.go lines 131-183): the available and active
sets both start as the epoch's eligible-worker snapshot, with nothing in
flight and nobody retired. -/
def initSchedState (pool : WorkerPool) (now : Nat) (m : RepairMatrix)
    (gc : GapCounts) : SchedState :=
  { matrix := m, gc := gc, workerPool := pool,
    eligible := eligibleWorkers pool now,
    activeWorkers := eligibleWorkers pool now,
    availableWorkers := eligibleWorkers pool now,
    outstanding := [], retiredWorkers := [], need := 0 }

/-- The claim's worker-set inclusions, together with the bookkeeping facts
that make them inductive. -/
def workerSetsInv (s : SchedState) : Prop :=
  s.availableWorkers ⊆ s.activeWorkers ∧
  s.activeWorkers ⊆ s.eligible ∧
  s.outstanding ⊆ s.activeWorkers ∧
  (∀ w ∈ s.outstanding, w ∉ s.availableWorkers) ∧
  s.availableWorkers.Nodup ∧ s.outstanding.Nodup

/-- Result handling, failure from a pooled worker: timestamp written, worker
retired and removed from the active set, `need` decremented. -/
theorem applyResult_err_some (now : Nat) (s : SchedState) (fu : finishedUpload)
    (w : worker) (herr : fu.err = true)
    (hlook : lookupWorker s.workerPool fu.workerID = some w) :
    applyResult now s fu = { s with
      workerPool := updateWorker s.workerPool fu.workerID
        { w with recentUploadFailure := now }
      activeWorkers := s.activeWorkers.erase fu.workerID
      retiredWorkers := s.retiredWorkers ++ [fu.workerID]
      need := s.need - 1
      outstanding := s.outstanding.erase fu.workerID } := by
  simp [applyResult, handleResult, herr, hlook]

/-- Result handling, failure from an unknown worker: only the ghost
`outstanding` entry is consumed. -/
theorem applyResult_err_none (now : Nat) (s : SchedState) (fu : finishedUpload)
    (herr : fu.err = true)
    (hlook : lookupWorker s.workerPool fu.workerID = none) :
    applyResult now s fu =
      { s with outstanding := s.outstanding.erase fu.workerID } := by
  simp [applyResult, handleResult, herr, hlook]

/-- Result handling, success: the worker goes back into the available set. -/
theorem applyResult_ok (now : Nat) (s : SchedState) (fu : finishedUpload)
    (herr : fu.err = false) :
    applyResult now s fu = { s with
      availableWorkers := if fu.workerID ∈ s.availableWorkers then
        s.availableWorkers else s.availableWorkers ++ [fu.workerID]
      outstanding := s.outstanding.erase fu.workerID } := by
  simp [applyResult, handleResult, herr]

/-- C9: at epoch start Available = Active = the eligible snapshot, and every
scheduler step — a candidate scan with its dispatch, the handling of a
success or failure result, or the folding of a new file — preserves
`Available ⊆ Active ⊆ Eligible-Worker-Set(at epoch start)`. -/
theorem worker_sets_invariant :
    (∀ (pool : WorkerPool) (now : Nat) (m : RepairMatrix) (gc : GapCounts),
      (pool.map Prod.fst).Nodup → workerSetsInv (initSchedState pool now m gc)) ∧
    (∀ (env : RepairEnv) (now : Nat) (s s2 : SchedState),
      workerSetsInv s → SchedStep env now s s2 → workerSetsInv s2) := by
  constructor
  · intro pool now m gc hnd
    have hel : (eligibleWorkers pool now).Nodup := by
      unfold eligibleWorkers
      exact hnd.sublist ((List.filter_sublist pool).map Prod.fst)
    exact ⟨fun w hw => hw, fun w hw => hw, fun w hw => absurd hw (List.not_mem_nil w),
      fun w hw => absurd hw (List.not_mem_nil w), hel, List.nodup_nil⟩
  · rintro env now s s2 ⟨h1, h2, h3, h4, h5, h6⟩ hstep
    cases hstep with
    | scan mg =>
      obtain ⟨k1, k2, k3, k4⟩ := scanMatrix_workers env mg s.retiredWorkers
        s.matrix s.availableWorkers s.gc h5
      refine ⟨fun w hw => h1 (k2 hw), h2, ?_, ?_, k1, ?_⟩
      · intro w hw
        rcases List.mem_append.1 hw with h | h
        · exact h3 h
        · exact h1 ((k4 w h).1)
      · intro w hw
        rcases List.mem_append.1 hw with h | h
        · exact fun hmem => h4 w h (k2 hmem)
        · exact (k4 w h).2
      · exact h6.append k3 (fun w hwo hws => h4 w hwo ((k4 w hws).1))
    | result fu hout =>
      show workerSetsInv (applyResult now s fu)
      by_cases herr : fu.err = true
      · cases hlook : lookupWorker s.workerPool fu.workerID with
        | some w =>
          rw [applyResult_err_some now s fu w herr hlook]
          refine ⟨?_, ?_, ?_, ?_, h5, h6.erase _⟩
          · intro w2 hw2
            have hne : w2 ≠ fu.workerID := by
              intro heq
              exact h4 fu.workerID hout (heq ▸ hw2)
            exact (List.mem_erase_of_ne hne).2 (h1 hw2)
          · exact fun w2 hw2 => h2 (List.erase_subset _ _ hw2)
          · intro w2 hw2
            obtain ⟨hne, hmem⟩ := h6.mem_erase_iff.1 hw2
            exact (List.mem_erase_of_ne hne).2 (h3 hmem)
          · intro w2 hw2
            exact h4 w2 (List.erase_subset _ _ hw2)
        | none =>
          rw [applyResult_err_none now s fu herr hlook]
          exact ⟨h1, h2, fun w2 hw2 => h3 (List.erase_subset _ _ hw2),
            fun w2 hw2 => h4 w2 (List.erase_subset _ _ hw2), h5, h6.erase _⟩
      · rw [applyResult_ok now s fu (by simpa using herr)]
        by_cases hmem : fu.workerID ∈ s.availableWorkers
        · rw [if_pos hmem]
          exact ⟨h1, h2, fun w2 hw2 => h3 (List.erase_subset _ _ hw2),
            fun w2 hw2 => h4 w2 (List.erase_subset _ _ hw2), h5, h6.erase _⟩
        · rw [if_neg hmem]
          refine ⟨?_, h2, fun w2 hw2 => h3 (List.erase_subset _ _ hw2), ?_, ?_, h6.erase _⟩
          · intro w2 hw2
            rcases List.mem_append.1 hw2 with h | h
            · exact h1 h
            · rw [List.mem_singleton.1 h]
              exact h3 hout
          · intro w2 hw2
            obtain ⟨hne, hmemo⟩ := h6.mem_erase_iff.1 hw2
            intro hw3
            rcases List.mem_append.1 hw3 with h | h
            · exact h4 w2 hmemo h
            · exact hne (List.mem_singleton.1 h)
          · exact List.Nodup.append h5 (List.nodup_singleton _)
              (fun a ha hb => hmem (by rwa [List.mem_singleton.1 hb] at ha))
    | newFile f =>
      exact ⟨h1, h2, h3, h4, h5, h6⟩

/-- Witness for C9: a concrete new-file step out of a concrete epoch-start
state, with the invariant discharged by the theorem itself. -/
theorem worker_sets_invariant_witness :
    workerSetsInv (applyNewFile c2file (initSchedState [(1, ⟨0⟩)] 4000 [] gcZero)) :=
  worker_sets_invariant.2 allOkEnv 4000 (initSchedState [(1, ⟨0⟩)] 4000 [] gcZero)
    (applyNewFile c2file (initSchedState [(1, ⟨0⟩)] 4000 [] gcZero))
    (worker_sets_invariant.1 [(1, ⟨0⟩)] 4000 [] gcZero (by decide))
    (SchedStep.newFile (initSchedState [(1, ⟨0⟩)] 4000 [] gcZero) c2file)

/-! ## Claim C8: epoch-start worker eligibility -/

/-- C8: at the start of every epoch, a worker is placed in the eligible
(available) set if and only if its most-recent-upload-failure timestamp is
either unset (zero value) or more than one hour older than the current time
(given that the current time itself lies more than one hour past the zero
timestamp, as any real clock reading does). -/
theorem eligible_iff_failure_unset_or_old (pool : WorkerPool) (now : Nat)
    (id : FileContractID) (hnow : timeHour < now) :
    id ∈ eligibleWorkers pool now ↔
      ∃ w : worker, (id, w) ∈ pool ∧
        (w.recentUploadFailure = 0 ∨ w.recentUploadFailure + timeHour < now) := by
  unfold eligibleWorkers
  constructor
  · intro h
    rcases List.mem_map.1 h with ⟨⟨a, w⟩, hp, hfst⟩
    rcases List.mem_filter.1 hp with ⟨hmem, hcond⟩
    simp only at hfst
    subst hfst
    exact ⟨w, hmem, Or.inr (by simpa using hcond)⟩
  · rintro ⟨w, hmem, hcond⟩
    refine List.mem_map.2 ⟨(id, w), List.mem_filter.2 ⟨hmem, ?_⟩, rfl⟩
    have hlt : w.recentUploadFailure + timeHour < now := by
      rcases hcond with h0 | h
      · simpa [h0] using hnow
      · exact h
    simpa using hlt

/-- Witness for C8 at a concrete pool and clock. -/
theorem eligible_iff_failure_unset_or_old_witness :
    timeHour < 4000 ∧
      ((7 : FileContractID) ∈ eligibleWorkers [(7, ⟨0⟩)] 4000 ↔
        ∃ w : worker, ((7 : FileContractID), w) ∈ [((7 : FileContractID), (⟨0⟩ : worker))] ∧
          (w.recentUploadFailure = 0 ∨ w.recentUploadFailure + timeHour < 4000)) :=
  ⟨by decide, eligible_iff_failure_unset_or_old [(7, ⟨0⟩)] 4000 7 (by decide)⟩

/-! ## Claim C10: failure result from an unknown worker -/

/-- C10: a failure result whose worker identity is not in the global worker
pool leaves the scheduler state entirely unchanged: no failure timestamp is
recorded, no worker is retired or removed from the active set, and `need` is
not decremented. -/
theorem unknown_worker_failure_is_noop (now : Nat) (s : WaitState)
    (fu : finishedUpload) (herr : fu.err = true)
    (hunknown : fu.workerID ∉ s.workerPool.map Prod.fst) :
    handleResult now s fu = s := by
  have hfind : s.workerPool.find? (fun p => decide (p.1 = fu.workerID)) = none :=
    List.find?_eq_none.2 fun p hp => by
      simp only [decide_eq_true_eq]
      intro heq
      exact hunknown (List.mem_map.2 ⟨p, hp, heq⟩)
  have hlook : lookupWorker s.workerPool fu.workerID = none := by
    unfold lookupWorker
    rw [hfind]
    rfl
  simp [handleResult, herr, hlook]

/-- Witness for C10 at a concrete state and result. -/
theorem unknown_worker_failure_is_noop_witness :
    (finishedUpload.mk 2 true).err = true ∧
      (finishedUpload.mk 2 true).workerID ∉
        (WaitState.mk [(1, ⟨0⟩)] [1] [1] [] 1).workerPool.map Prod.fst ∧
      handleResult 5 (WaitState.mk [(1, ⟨0⟩)] [1] [1] [] 1) (finishedUpload.mk 2 true) =
        WaitState.mk [(1, ⟨0⟩)] [1] [1] [] 1 :=
  ⟨by decide, by decide,
    unknown_worker_failure_is_noop 5 (WaitState.mk [(1, ⟨0⟩)] [1] [1] [] 1)
      (finishedUpload.mk 2 true) (by decide) (by decide)⟩

/-! ## Claim C6: the wait threshold -/

/-- C6: at the end of every iteration the number of available workers the
scheduler waits for is `need = max(len(Active) - max(maxGaps - 4, 0),
len(Available) + 1)` capped at `len(Active)`; and once the epoch has run for
more than one hour, `need` is instead forced to `len(Active)` and the epoch
ends after that wait so the matrix is rebuilt. -/
theorem need_formula (mg numActive numAvailable elapsed : Nat) :
    ((computeNeed mg numActive numAvailable elapsed).need =
      if elapsed > timeHour then (numActive : Int)
      else
        min (max ((numActive : Int) - max ((mg : Int) - 4) 0)
          ((numAvailable : Int) + 1)) (numActive : Int)) ∧
    (elapsed > timeHour →
      (computeNeed mg numActive numAvailable elapsed).need = (numActive : Int) ∧
      epochEndsAfterWait (computeNeed mg numActive numAvailable elapsed) = true) := by
  by_cases he : elapsed > timeHour
  · simp [computeNeed, epochEndsAfterWait, he]
  · refine ⟨?_, fun h => absurd h he⟩
    simp only [computeNeed, epochEndsAfterWait, he, if_neg, if_false]
    split_ifs <;> omega

/-- Witness for C6 at concrete inputs with the epoch past the hour mark. -/
theorem need_formula_witness :
    (4000 > timeHour → (computeNeed 10 5 1 4000).need = (5 : Int) ∧
      epochEndsAfterWait (computeNeed 10 5 1 4000) = true) :=
  (need_formula 10 5 1 4000).2

end RenterRepair
